import Mathlib

/-!
Shallow embedding of `prelude/rust/tools/rustc_action.py`, the rustc wrapper:
environment construction (env/path-env handling in `main`), the diagnostic
stream processor (`handle_output`), the exit-status reconciliation and the
failure filter (tail of `main`).  Definitions are translated from the Python
source; the theorems settle the specification claims about it.
-/

namespace RustcAction

/-! ### Python string ordering

Python compares `str` values lexicographically by code point.  `charsLt` is
that comparison on the underlying character lists (`Char.toNat` is the code
point). -/

def charsLt : List Char → List Char → Bool
  | [], [] => false
  | [], _ :: _ => true
  | _ :: _, [] => false
  | c :: cs, d :: ds =>
    if c.toNat < d.toNat then true
    else if d.toNat < c.toNat then false
    else charsLt cs ds

def strLtB (a b : String) : Bool := charsLt a.data b.data

def strLeB (a b : String) : Bool := !(strLtB b a)

/-- The order used by `list.sort()` on strings, as a `Prop`-valued relation. -/
def str_le (a b : String) : Prop := strLeB a b = true

instance : DecidableRel str_le := fun a b => instDecidableEqBool (strLeB a b) true

theorem charsLt_asymm : ∀ (a b : List Char), charsLt a b = true → charsLt b a = false
  | [], [], h => by simp [charsLt] at h
  | [], _ :: _, _ => rfl
  | _ :: _, [], h => by simp [charsLt] at h
  | c :: cs, d :: ds, h => by
    by_cases h1 : c.toNat < d.toNat
    · show charsLt (d :: ds) (c :: cs) = false
      simp only [charsLt]
      rw [if_neg (by omega), if_pos h1]
    · by_cases h2 : d.toNat < c.toNat
      · simp only [charsLt] at h
        rw [if_neg h1, if_pos h2] at h
        exact absurd h (by simp)
      · simp only [charsLt] at h ⊢
        rw [if_neg h1, if_neg h2] at h
        rw [if_neg h2, if_neg h1]
        exact charsLt_asymm cs ds h

theorem charsLt_connex :
    ∀ (a b : List Char), charsLt a b = false → charsLt b a = false → a = b
  | [], [], _, _ => rfl
  | [], _ :: _, h, _ => by simp [charsLt] at h
  | _ :: _, [], _, h' => by simp [charsLt] at h'
  | c :: cs, d :: ds, h, h' => by
    by_cases h1 : c.toNat < d.toNat
    · simp only [charsLt] at h
      rw [if_pos h1] at h
      exact absurd h (by simp)
    · by_cases h2 : d.toNat < c.toNat
      · simp only [charsLt] at h'
        rw [if_pos h2] at h'
        exact absurd h' (by simp)
      · simp only [charsLt] at h h'
        rw [if_neg h1, if_neg h2] at h
        rw [if_neg h2, if_neg h1] at h'
        have hv : c.toNat = d.toNat := by omega
        have hcd : c = d := Char.ext (UInt32.ext hv)
        rw [hcd, charsLt_connex cs ds h h']

theorem charsLt_trans :
    ∀ (a b c : List Char), charsLt a b = true → charsLt b c = true → charsLt a c = true
  | [], [], _, h, _ => by simp [charsLt] at h
  | [], _ :: _, [], _, h' => by simp [charsLt] at h'
  | [], _ :: _, _ :: _, _, _ => rfl
  | _ :: _, [], _, h, _ => by simp [charsLt] at h
  | _ :: _, _ :: _, [], _, h' => by simp [charsLt] at h'
  | a :: as, b :: bs, c :: cs, h, h' => by
    simp only [charsLt] at h h' ⊢
    by_cases h1 : a.toNat < b.toNat
    · by_cases h3 : c.toNat < b.toNat
      · rw [if_neg (by omega), if_pos h3] at h'
        exact absurd h' (by simp)
      · by_cases h2 : b.toNat < c.toNat
        · rw [if_pos (by omega)]
        · rw [if_pos (by omega)]
    · by_cases h2 : b.toNat < a.toNat
      · rw [if_neg h1, if_pos h2] at h
        exact absurd h (by simp)
      · rw [if_neg h1, if_neg h2] at h
        by_cases h3 : b.toNat < c.toNat
        · rw [if_pos (by omega)]
        · by_cases h4 : c.toNat < b.toNat
          · rw [if_neg h3, if_pos h4] at h'
            exact absurd h' (by simp)
          · rw [if_neg h3, if_neg h4] at h'
            rw [if_neg (by omega), if_neg (by omega)]
            exact charsLt_trans as bs cs h h'

instance : IsTotal String str_le := by
  constructor
  intro a b
  unfold str_le strLeB strLtB
  rcases h : charsLt b.data a.data with _ | _
  · left
    simp [h]
  · right
    simp [charsLt_asymm _ _ h]

instance : IsTrans String str_le := by
  constructor
  intro a b c hab hbc
  unfold str_le strLeB strLtB at hab hbc ⊢
  simp only [Bool.not_eq_true'] at hab hbc ⊢
  by_contra hca
  simp only [Bool.not_eq_false] at hca
  rcases hbc' : charsLt b.data c.data with _ | _
  · have hbceq : b.data = c.data := charsLt_connex _ _ hbc' hbc
    rw [hbceq] at hab
    simp [hab] at hca
  · have := charsLt_trans _ _ _ hbc' hca
    simp [this] at hab

/-- Embedding of `rendered_unused.sort()` (Python ascending sort on
strings; for a linear order the sorted permutation is unique, so insertion
sort computes the same list). -/
def py_sort (l : List String) : List String := l.insertionSort str_le

theorem py_sort_perm (l : List String) : (py_sort l).Perm l := List.perm_insertionSort _ l

theorem py_sort_sorted (l : List String) : (py_sort l).Sorted str_le :=
  List.sorted_insertionSort _ l

/-! ### Python dict model

Insertion-ordered association list with unique keys: `dict_set` is
`d[k] = v` (replace in place, else append), `dict_update` is
`d.update(pairs)`, `dict_get` is `d.get(k)`. -/

abbrev EnvMap := List (String × String)

def dict_set (m : EnvMap) (k v : String) : EnvMap :=
  match m with
  | [] => [(k, v)]
  | p :: rest => if p.1 == k then (k, v) :: rest else p :: dict_set rest k v

def dict_update (m : EnvMap) (l : EnvMap) : EnvMap :=
  l.foldl (fun acc kv => dict_set acc kv.1 kv.2) m

def dict_get (m : EnvMap) (k : String) : Option String :=
  (m.find? (fun p => p.1 == k)).map (fun p => p.2)

theorem dict_get_set_self (m : EnvMap) (k v : String) :
    dict_get (dict_set m k v) k = some v := by
  induction m with
  | nil => simp [dict_set, dict_get, List.find?]
  | cons p rest ih =>
    simp only [dict_set]
    rcases hp : (p.1 == k) with _ | _
    · rw [if_neg (by simp [hp])]
      simp only [dict_get] at ih ⊢
      rw [List.find?_cons_of_neg _ (by simp [hp])]
      exact ih
    · rw [if_pos (by simp [hp])]
      simp only [dict_get]
      rw [List.find?_cons_of_pos _ (by simp)]
      rfl

theorem dict_get_set_other (m : EnvMap) (k v k' : String) (h : k' ≠ k) :
    dict_get (dict_set m k v) k' = dict_get m k' := by
  induction m with
  | nil =>
    simp only [dict_set, dict_get]
    rw [List.find?_cons_of_neg _ (by simp only [beq_iff_eq]; exact fun hh => h hh.symm)]
  | cons p rest ih =>
    simp only [dict_set]
    rcases hp : (p.1 == k) with _ | _
    · rw [if_neg (by simp [hp])]
      simp only [dict_get] at ih ⊢
      rcases hp' : (p.1 == k') with _ | _
      · rw [List.find?_cons_of_neg _ (by simp [hp']), List.find?_cons_of_neg _ (by simp [hp'])]
        exact ih
      · rw [List.find?_cons_of_pos _ (by simp [hp']), List.find?_cons_of_pos _ (by simp [hp'])]
    · rw [if_pos (by simp [hp])]
      have hk : p.1 = k := by simpa using hp
      simp only [dict_get]
      rw [List.find?_cons_of_neg _ (by simp only [beq_iff_eq]; exact fun hh => h hh.symm),
        List.find?_cons_of_neg _ (by simp only [beq_iff_eq, hk]; exact fun hh => h hh.symm)]

theorem dict_get_update_absent (m : EnvMap) (l : EnvMap) (k : String)
    (h : ∀ p ∈ l, p.1 ≠ k) : dict_get (dict_update m l) k = dict_get m k := by
  induction l generalizing m with
  | nil => rfl
  | cons p l ih =>
    show dict_get (dict_update (dict_set m p.1 p.2) l) k = dict_get m k
    rw [ih _ (fun q hq => h q (List.mem_cons_of_mem _ hq))]
    exact dict_get_set_other _ _ _ _ (fun hh => h p (List.mem_cons_self _ _) hh.symm)

theorem dict_update_append (m : EnvMap) (l₁ l₂ : EnvMap) :
    dict_update m (l₁ ++ l₂) = dict_update (dict_update m l₁) l₂ := by
  simp [dict_update, List.foldl_append]

/-! ### Environment Resolver

`main` builds the subprocess environment: allow-listed ambient variables,
then `args.env` literals, then `args.path_env` values pushed through
`Path(v).resolve()`.  `resolve` models `pathlib.Path.resolve(strict=False)`
over a POSIX component model: relative paths are anchored at the working
directory, `.`/`..`/empty components are normalized, and symbolic links
(given as a map from absolute path to target) are followed, with a fuel
bound standing for the OS symlink-loop limit. -/

def env_allowlist : List String :=
  ["RUSTC_LOG", "RUST_BACKTRACE", "PATH", "PWD", "HOME", "TMPDIR", "TEMP",
   "EXECUTION_ID", "SESSION_ID", "CAS_DAEMON_PORT", "USER", "DOTSLASH_CACHE"]

def initial_env (ambient : String → Option String) : EnvMap :=
  env_allowlist.filterMap (fun k => (ambient k).map (fun v => (k, v)))

/-- Split on the path separator (`"a/b".split("/") = ["a", "b"]`, with empty
pieces kept, as Python produces them). -/
def split_slash : List Char → List String
  | [] => [""]
  | c :: cs =>
    let r := split_slash cs
    if c == '/' then "" :: r
    else
      match r with
      | [] => [String.mk [c]]
      | x :: xs => String.mk (c :: x.data) :: xs

def split_path (s : String) : List String := split_slash s.data

def join_abs (comps : List String) : String := "/" ++ String.intercalate "/" comps

def is_abs (s : String) : Bool :=
  match s.data with
  | c :: _ => c == '/'
  | [] => false

/-- A normalized path component: not empty, not `.`, not `..`. -/
def good_comp (c : String) : Bool := !(c == "") && !(c == ".") && !(c == "..")

/-- Purely lexical normalization (used when the symlink-following fuel runs
out, mirroring the OS giving up on a symlink loop). -/
def lex_comps (cur : List String) : List String → List String
  | [] => cur
  | c :: rest =>
    if c == "" || c == "." then lex_comps cur rest
    else if c == ".." then lex_comps cur.dropLast rest
    else lex_comps (cur ++ [c]) rest

/-- One fuel level of component resolution: walk the remaining components,
normalizing `.`/`..`/empty and looking plain components up in the symlink
table; on a symlink hit, hand the expanded component list to `recur`, the
resolver with one unit of fuel less. -/
def resolve_inner (fs : List (String × String))
    (recur : List String → List String → List String) (cur : List String) :
    List String → List String
  | [] => cur
  | c :: rest =>
    if c == "" || c == "." then resolve_inner fs recur cur rest
    else if c == ".." then resolve_inner fs recur cur.dropLast rest
    else
      match dict_get fs (join_abs (cur ++ [c])) with
      | some tgt =>
        if is_abs tgt then recur [] (split_path tgt ++ rest)
        else recur cur (split_path tgt ++ rest)
      | none => resolve_inner fs recur (cur ++ [c]) rest

def resolve_comps (fs : List (String × String)) : Nat → List String → List String → List String
  | 0 => fun cur rest => lex_comps cur rest
  | fuel + 1 => resolve_inner fs (resolve_comps fs fuel)

/-- OS bound on symlink traversals (`MAXSYMLINKS`). -/
def max_symlinks : Nat := 40

/-- Model of `str(Path(v).resolve())`: anchor relative paths at the working
directory, then resolve components against the symlink table. -/
def resolve (fs : List (String × String)) (cwd : String) (path : String) : String :=
  if is_abs path then join_abs (resolve_comps fs max_symlinks [] (split_path path))
  else join_abs (resolve_comps fs max_symlinks [] (split_path cwd ++ split_path path))

/-- The environment handed to the subprocess (`main`, env setup): allow-listed
ambient variables, overridden by `--env` pairs, overridden by `--path-env`
pairs with values resolved to absolute form. -/
def build_env (ambient : String → Option String) (env_args : Option EnvMap)
    (path_env_args : Option EnvMap) (fs : List (String × String)) (cwd : String) : EnvMap :=
  let e := initial_env ambient
  let e := match env_args with
    | some l => dict_update e l
    | none => e
  match path_env_args with
  | some l => dict_update e (l.map (fun kv => (kv.1, resolve fs cwd kv.2)))
  | none => e

theorem is_abs_join (comps : List String) : is_abs (join_abs comps) = true := rfl

theorem lex_comps_good (cur rest : List String) (h : ∀ c ∈ cur, good_comp c = true) :
    ∀ c ∈ lex_comps cur rest, good_comp c = true := by
  induction rest generalizing cur with
  | nil => simpa [lex_comps] using h
  | cons c rest ih =>
    simp only [lex_comps]
    by_cases h1 : (c == "" || c == ".") = true
    · rw [if_pos h1]
      exact ih cur h
    · rw [if_neg h1]
      by_cases h2 : (c == "..") = true
      · rw [if_pos h2]
        exact ih _ (fun d hd => h d (List.dropLast_subset _ hd))
      · rw [if_neg h2]
        refine ih _ (fun d hd => ?_)
        rcases List.mem_append.mp hd with hd | hd
        · exact h d hd
        · rw [List.mem_singleton] at hd
          subst hd
          simp only [Bool.or_eq_true, beq_iff_eq, not_or] at h1
          simp only [beq_iff_eq] at h2
          simp [good_comp, h1.1, h1.2, h2]

theorem resolve_inner_good (fs : List (String × String))
    (recur : List String → List String → List String)
    (hrec : ∀ cur rest, (∀ c ∈ cur, good_comp c = true) →
      ∀ c ∈ recur cur rest, good_comp c = true) :
    ∀ (rest cur : List String), (∀ c ∈ cur, good_comp c = true) →
      ∀ c ∈ resolve_inner fs recur cur rest, good_comp c = true := by
  intro rest
  induction rest with
  | nil =>
    intro cur h
    simpa [resolve_inner] using h
  | cons c rest ihr =>
    intro cur h
    simp only [resolve_inner]
    by_cases h1 : (c == "" || c == ".") = true
    · rw [if_pos h1]
      exact ihr cur h
    · rw [if_neg h1]
      by_cases h2 : (c == "..") = true
      · rw [if_pos h2]
        exact ihr _ (fun d hd => h d (List.dropLast_subset _ hd))
      · rw [if_neg h2]
        cases hfind : dict_get fs (join_abs (cur ++ [c])) with
        | none =>
          simp only [hfind]
          refine ihr _ (fun d hd => ?_)
          rcases List.mem_append.mp hd with hd | hd
          · exact h d hd
          · rw [List.mem_singleton] at hd
            subst hd
            simp only [Bool.or_eq_true, beq_iff_eq, not_or] at h1
            simp only [beq_iff_eq] at h2
            simp [good_comp, h1.1, h1.2, h2]
        | some tgt =>
          simp only [hfind]
          by_cases h3 : is_abs tgt = true
          · rw [if_pos h3]
            exact hrec _ _ (by simp)
          · rw [if_neg h3]
            exact hrec _ _ h

theorem resolve_comps_good (fs : List (String × String)) :
    ∀ (fuel : Nat) (rest cur : List String), (∀ c ∈ cur, good_comp c = true) →
      ∀ c ∈ resolve_comps fs fuel cur rest, good_comp c = true := by
  intro fuel
  induction fuel with
  | zero =>
    intro rest cur h
    simpa [resolve_comps] using lex_comps_good cur rest h
  | succ fuel ihf =>
    intro rest cur h
    simpa [resolve_comps] using
      resolve_inner_good fs (resolve_comps fs fuel) (fun cur rest h => ihf rest cur h) rest cur h

theorem resolve_normalized (fs : List (String × String)) (cwd path : String) :
    ∃ comps, resolve fs cwd path = join_abs comps ∧ ∀ c ∈ comps, good_comp c = true := by
  unfold resolve
  by_cases h : is_abs path = true
  · rw [if_pos h]
    exact ⟨_, rfl, resolve_comps_good fs _ _ [] (by simp)⟩
  · rw [if_neg h]
    exact ⟨_, rfl, resolve_comps_good fs _ _ [] (by simp)⟩

theorem resolve_is_abs (fs : List (String × String)) (cwd path : String) :
    is_abs (resolve fs cwd path) = true := by
  obtain ⟨comps, hc, -⟩ := resolve_normalized fs cwd path
  rw [hc]
  exact is_abs_join comps

/-! ### Diagnostic Stream Processor (`handle_output`)

A diagnostic record is one JSON object from the compiler diagnostic channel;
the fields consumed by the wrapper are modelled, each optional exactly as
`diag.get(...)` treats a missing key.  A channel line either parses as a
record or fails to parse (`json.JSONDecodeError`), which the embedding
represents up front since the claims are about post-parse behavior. -/

structure Diag where
  level : Option String
  rendered : Option String
  lint_level : Option String
  unused_extern_names : Option (List String)
  buck_target : Option String
  unused_deps : Option (List (String × String))
deriving DecidableEq, Repr

inductive Line where
  | raw (s : String)
  | parsed (d : Diag)
deriving DecidableEq, Repr

/-- State accumulated by the read loop: the `got_error_diag` flag and the
contents written to each sink (structured sink as the list of emitted
records, text sink and the wrapper error stream as strings). -/
structure OutState where
  got_error_diag : Bool
  diag_json : List Diag
  diag_txt : String
  stderr_out : String
deriving DecidableEq, Repr

def init_out : OutState := ⟨false, [], "", ""⟩

/-- Arguments of `handle_output`: whether each sink is configured and the
optional caller identifier. -/
structure HandlerArgs where
  diag_json_on : Bool
  diag_txt_on : Bool
  buck_target : Option String
deriving DecidableEq, Repr

/-- Python truthiness of `diag.get("unused_extern_names", None)`. -/
def truthy_names : Option (List String) → Bool
  | some (_ :: _) => true
  | _ => false

/-- One entry of `rendered_unused`: `"target: name"` when the crate map has
the name, the bare name otherwise. -/
def render_unused_entry (crate_map : EnvMap) (name : String) : String :=
  match dict_get crate_map name with
  | some tgt => tgt ++ ": " ++ name
  | none => name

/-- The synthesized rendered message for an unused-dependency record. -/
def synth_rendered (target : String) (crate_map : EnvMap) (names : List String) : String :=
  "Target `" ++ target ++ "` has unused dependencies:\n    " ++
    String.intercalate "\n    " (py_sort (names.map (render_unused_entry crate_map)))

/-- First-occurrence deduplication, as Python dict insertion does for
repeated keys. -/
def dedup_first (l : List String) : List String := go [] l
where
  go (seen : List String) : List String → List String
  | [] => []
  | x :: xs => if seen.contains x then go seen xs else x :: go (seen ++ [x]) xs

/-- The dict comprehension for `diag["unused_deps"]`: unused names present in
the crate map, mapped to their targets. -/
def unused_deps_map (crate_map : EnvMap) (names : List String) : List (String × String) :=
  (dedup_first names).filterMap (fun n => (dict_get crate_map n).map (fun t => (n, t)))

/-- The enrichment block of `handle_output` for a record whose
`unused_extern_names` is truthy. -/
def enrich_unused (buck_target : Option String) (crate_map : EnvMap) (d : Diag)
    (names : List String) : Diag :=
  let d :=
    match buck_target with
    | some tgt =>
      { d with buck_target := some tgt, rendered := some (synth_rendered tgt crate_map names) }
    | none => d
  { d with unused_deps := some (unused_deps_map crate_map names) }

/-- The emit part of the loop body: write the (possibly enriched) record to
the structured sink if configured, and its rendered text to the text sink if
configured and always to the wrapper error stream. -/
def emit_phase (args : HandlerArgs) (st : OutState) (d : Diag) : OutState :=
  let st := if args.diag_json_on then { st with diag_json := st.diag_json ++ [d] } else st
  match d.rendered with
  | some r =>
    let st := if args.diag_txt_on then { st with diag_txt := st.diag_txt ++ r ++ "\n" } else st
    { st with stderr_out := st.stderr_out ++ r ++ "\n" }
  | none => st

/-- One iteration of the `handle_output` read loop. -/
def handle_line (args : HandlerArgs) (crate_map : EnvMap) (st : OutState) (l : Line) :
    OutState :=
  match l with
  | .raw s => { st with stderr_out := st.stderr_out ++ s ++ "\n" }
  | .parsed d =>
    let st := if d.level == some "error" then { st with got_error_diag := true } else st
    let st :=
      if truthy_names d.unused_extern_names &&
          (d.lint_level == some "deny" || d.lint_level == some "forbid") then
        { st with got_error_diag := true }
      else st
    let d :=
      if truthy_names d.unused_extern_names then
        enrich_unused args.buck_target crate_map d (d.unused_extern_names.getD [])
      else d
    emit_phase args st d

/-- The `handle_output` read loop over the whole diagnostic channel. -/
def handle_output (args : HandlerArgs) (crate_map : EnvMap) (st : OutState) :
    List Line → OutState
  | [] => st
  | l :: ls => handle_output args crate_map (handle_line args crate_map st l) ls

/-! ### The read loop at byte level

`proc_stderr.readline()` yields raw bytes and `json.loads(line)` is applied
to those bytes directly: CPython first decodes them with
`line.decode(json.detect_encoding(line), "surrogatepass")` and only then
parses.  A decode failure raises `UnicodeDecodeError`, which is not a
`JSONDecodeError`, so the `except json.JSONDecodeError` handler does not
catch it and the wrapper fails.  This layer models that path. -/

deriving instance DecidableEq for Except

/-- Silent-error promotion: `if res == 0 and got_error_diag: res = 1`. -/
def reconcile (res : Int) (got_error_diag : Bool) : Int :=
  if res == 0 && got_error_diag then 1 else res

def shlex_safe_char (c : Char) : Bool :=
  c.isAlphanum || c == '_' || c == '@' || c == '%' || c == '+' || c == '=' ||
    c == ':' || c == ',' || c == '.' || c == '/' || c == '-'

/-- The replacement `s.replace("\x27", "\x27\x22\x27\x22\x27")` done by
`shlex.quote` (code point 39 is the single quote). -/
def quote_escape : List Char → List Char
  | [] => []
  | c :: cs =>
    if c.toNat == 39 then ("\x27\x22\x27\x22\x27").data ++ quote_escape cs
    else c :: quote_escape cs

/-- Embedding of `shlex.quote`. -/
def shlex_quote (s : String) : String :=
  if s == "" then "\x27\x27"
  else if s.data.all shlex_safe_char then s
  else "\x27" ++ String.mk (quote_escape s.data) ++ "\x27"

/-- The message printed on the wrapper error stream on death by signal. -/
def signal_message (res : Int) (rustc : List String) : String :=
  "Command exited with signal " ++ toString (-res) ++ ": command line: " ++
    String.intercalate " " (rustc.map shlex_quote)

structure BuildStatus where
  status : Int
  files : List String
deriving DecidableEq, Repr

/-- Result of the post-wait part of `main`: the effective status returned to
the orchestrator, the signal message (if printed), the build-status
descriptor (if written) and the placeholder paths touched, in order. -/
structure FinalState where
  status : Int
  signal_msg : Option String
  build_status : Option BuildStatus
  touched : List String
deriving DecidableEq, Repr

/-- The placeholder loop: `for _short, path in required_output: if not
path.exists(): path.touch()`; returns the paths touched, threading the
existence state so a path created by an earlier iteration is not touched
again. -/
def touch_loop (ex : String → Bool) : List (String × String) → List String
  | [] => []
  | (_, p) :: rest =>
    if ex p then touch_loop ex rest
    else p :: touch_loop (fun q => q == p || ex q) rest

/-- Arguments of the finalization phase. -/
structure FinalizeArgs where
  failure_filter_on : Bool
  required_output : List (String × String)
  rustc : List String
deriving Repr

/-- The tail of `main` after `res = await proc.wait()`: silent-error
promotion, the signal-death branch, and the failure filter.  `ex p` states
whether path `p` exists on disk at that point. -/
def finalize (fargs : FinalizeArgs) (ex : String → Bool) (res0 : Int)
    (got_error_diag : Bool) : FinalState :=
  let res := reconcile res0 got_error_diag
  if res < 0 then
    { status := res, signal_msg := some (signal_message res fargs.rustc),
      build_status := none, touched := [] }
  else if fargs.failure_filter_on then
    let build_status : BuildStatus :=
      { status := res,
        files := (fargs.required_output.filter (fun sp => ex sp.2)).map (fun sp => sp.1) }
    if got_error_diag && !(res == 0) then
      { status := 0, signal_msg := none, build_status := some build_status,
        touched := touch_loop ex fargs.required_output }
    else
      { status := res, signal_msg := none, build_status := some build_status, touched := [] }
  else
    { status := res, signal_msg := none, build_status := none, touched := [] }

/-- Composition of the concurrent read loop with the finalization, as
`main` joins them: the channel is fully drained, then the process result is
reconciled and filtered. -/
def run_wrapper (hargs : HandlerArgs) (fargs : FinalizeArgs) (crate_map : EnvMap)
    (ex : String → Bool) (lines : List Line) (res0 : Int) : FinalState × OutState :=
  let out := handle_output hargs crate_map init_out lines
  (finalize fargs ex res0 out.got_error_diag, out)

/-! ### Helper lemmas about the loop body and the placeholder loop -/

theorem emit_phase_spec (args : HandlerArgs) (st : OutState) (d : Diag) :
    emit_phase args st d =
      { st with
        diag_json := st.diag_json ++ (if args.diag_json_on then [d] else []),
        diag_txt := st.diag_txt ++
          (match d.rendered with
            | some r => if args.diag_txt_on then r ++ "\n" else ""
            | none => ""),
        stderr_out := st.stderr_out ++
          (match d.rendered with
            | some r => r ++ "\n"
            | none => "") } := by
  rcases hj : args.diag_json_on with _ | _ <;>
    rcases hr : d.rendered with _ | r <;>
      rcases ht : args.diag_txt_on with _ | _ <;>
        simp [emit_phase, hj, hr, ht, String.append_assoc]

theorem handle_line_parsed (args : HandlerArgs) (cm : EnvMap) (st : OutState) (d : Diag) :
    handle_line args cm st (.parsed d) =
      emit_phase args
        { st with
          got_error_diag := st.got_error_diag || d.level == some "error" ||
            (truthy_names d.unused_extern_names &&
              (d.lint_level == some "deny" || d.lint_level == some "forbid")) }
        (if truthy_names d.unused_extern_names then
          enrich_unused args.buck_target cm d (d.unused_extern_names.getD [])
        else d) := by
  simp only [handle_line]
  congr 1
  rcases h1 : (d.level == some "error") with _ | _ <;>
    rcases h2 : truthy_names d.unused_extern_names with _ | _ <;>
      rcases h3 : (d.lint_level == some "deny" || d.lint_level == some "forbid") with _ | _ <;>
        simp [h1, h2, h3]

theorem handle_line_got_error (args : HandlerArgs) (cm : EnvMap) (st : OutState) (d : Diag) :
    (handle_line args cm st (.parsed d)).got_error_diag =
      (st.got_error_diag || d.level == some "error" ||
        (truthy_names d.unused_extern_names &&
          (d.lint_level == some "deny" || d.lint_level == some "forbid"))) := by
  rw [handle_line_parsed, emit_phase_spec]

theorem touch_loop_covers :
    ∀ (ro : List (String × String)) (ex : String → Bool) (sp : String × String),
      sp ∈ ro → ex sp.2 = false → sp.2 ∈ touch_loop ex ro := by
  intro ro
  induction ro with
  | nil => intro ex sp h; exact absurd h (List.not_mem_nil _)
  | cons hd rest ih =>
    intro ex sp hmem hex
    obtain ⟨s, p⟩ := hd
    rcases List.mem_cons.mp hmem with rfl | hmem
    · simp only [touch_loop]
      rw [if_neg (by simp [hex])]
      exact List.mem_cons_self _ _
    · simp only [touch_loop]
      by_cases hp : ex p = true
      · rw [if_pos hp]
        exact ih ex sp hmem hex
      · rw [if_neg hp]
        by_cases heq : sp.2 = p
        · rw [heq]
          exact List.mem_cons_self _ _
        · refine List.mem_cons_of_mem _ (ih _ sp hmem ?_)
          simp [heq, hex]

theorem touch_loop_not_ex :
    ∀ (ro : List (String × String)) (ex : String → Bool) (p : String),
      p ∈ touch_loop ex ro → ex p = false := by
  intro ro
  induction ro with
  | nil => intro ex p h; exact absurd h (List.not_mem_nil _)
  | cons hd rest ih =>
    intro ex p hmem
    obtain ⟨s, q⟩ := hd
    simp only [touch_loop] at hmem
    by_cases hq : ex q = true
    · rw [if_pos hq] at hmem
      exact ih ex p hmem
    · rw [if_neg hq] at hmem
      rcases List.mem_cons.mp hmem with rfl | hmem
      · simpa using hq
      · have := ih _ p hmem
        simp only [Bool.or_eq_false_iff] at this
        exact this.2

theorem filterMap_pair_fst (g : String → Option String) (l : List String) :
    (l.filterMap (fun n => (g n).map (fun t => (n, t)))).map (fun p => p.1) =
      l.filter (fun n => (g n).isSome) := by
  induction l with
  | nil => rfl
  | cons x xs ih => cases hg : g x <;> simp [hg, ih]

theorem filterMap_pair_mem (g : String → Option String) (l : List String) :
    ∀ p ∈ l.filterMap (fun n => (g n).map (fun t => (n, t))), g p.1 = some p.2 := by
  induction l with
  | nil => intro p h; exact absurd h (List.not_mem_nil _)
  | cons x xs ih =>
    intro p hmem
    cases hg : g x with
    | none =>
      simp only [List.filterMap_cons, hg, Option.map_none'] at hmem
      exact ih p hmem
    | some t =>
      simp only [List.filterMap_cons, hg, Option.map_some'] at hmem
      rcases List.mem_cons.mp hmem with rfl | hmem
      · exact hg
      · exact ih p hmem

/-! ### The claims -/

/-- C1: for an invocation whose subprocess exits normally with status 0, the
effective status computed by the Exit-Status Reconciler is 0 when no
error-level diagnostic was seen (`got_error_diag = false`) and non-zero
(silent-error promotion) when one was seen (`got_error_diag = true`). -/
theorem c1_silent_error_promotion : reconcile 0 false = 0 ∧ reconcile 0 true ≠ 0 := by
  decide

/-- C3: when the subprocess dies by signal (negative process result), the
effective status is non-zero regardless of the failure-filter setting, a
message naming the signal number is emitted on the wrapper error stream, no
build-status descriptor is written, and no placeholder file is created. -/
theorem c3_signal_death (fargs : FinalizeArgs) (ex : String → Bool) (res0 : Int) (e : Bool)
    (h : res0 < 0) :
    (finalize fargs ex res0 e).status ≠ 0
    ∧ (finalize fargs ex res0 e).build_status = none
    ∧ (finalize fargs ex res0 e).touched = []
    ∧ (finalize fargs ex res0 e).signal_msg =
        some ("Command exited with signal " ++ toString (-res0) ++ ": command line: " ++
          String.intercalate " " (fargs.rustc.map shlex_quote)) := by
  have h0 : ¬(res0 = 0) := by omega
  have hrec : reconcile res0 e = res0 := by simp [reconcile, beq_iff_eq, h0]
  refine ⟨?_, ?_, ?_, ?_⟩ <;> simp [finalize, hrec, if_pos h, signal_message, h0]

theorem c3_signal_death_witness :
    (finalize ⟨true, [("a", "out/a")], ["rustc", "main.rs"]⟩ (fun _ => false) (-11) true).status ≠ 0
    ∧ (finalize ⟨true, [("a", "out/a")], ["rustc", "main.rs"]⟩ (fun _ => false) (-11)
        true).build_status = none
    ∧ (finalize ⟨true, [("a", "out/a")], ["rustc", "main.rs"]⟩ (fun _ => false) (-11)
        true).touched = []
    ∧ (finalize ⟨true, [("a", "out/a")], ["rustc", "main.rs"]⟩ (fun _ => false) (-11)
        true).signal_msg =
        some ("Command exited with signal " ++ toString (-(-11 : Int)) ++ ": command line: " ++
          String.intercalate " " ((["rustc", "main.rs"]).map shlex_quote)) :=
  c3_signal_death ⟨true, [("a", "out/a")], ["rustc", "main.rs"]⟩ (fun _ => false) (-11) true
    (by decide)

/-- C7: a record with a truthy unused-dependency set and lint severity
`deny` or `forbid` sets `got_error_diag` (whatever its own severity level
is); a record whose unused-dependency set is absent or empty and whose level
is not `error` leaves `got_error_diag` unchanged, regardless of its lint
severity. -/
theorem c7_lint_escalation (args : HandlerArgs) (cm : EnvMap) (st : OutState) :
    (∀ (d : Diag) (names : List String), d.unused_extern_names = some names → names ≠ [] →
      (d.lint_level = some "deny" ∨ d.lint_level = some "forbid") →
      (handle_line args cm st (.parsed d)).got_error_diag = true)
    ∧ (∀ d : Diag, (d.unused_extern_names = none ∨ d.unused_extern_names = some []) →
      d.level ≠ some "error" →
      (handle_line args cm st (.parsed d)).got_error_diag = st.got_error_diag) := by
  constructor
  · intro d names hn hne hl
    rw [handle_line_got_error]
    have ht : truthy_names d.unused_extern_names = true := by
      rw [hn]
      cases names with
      | nil => exact absurd rfl hne
      | cons a as => rfl
    have hd : (d.lint_level == some "deny" || d.lint_level == some "forbid") = true := by
      rcases hl with h | h <;> simp [h]
    simp [ht, hd]
  · intro d h1 h2
    rw [handle_line_got_error]
    have ht : truthy_names d.unused_extern_names = false := by
      rcases h1 with h | h <;> simp [h, truthy_names]
    have hl : (d.level == some "error") = false := by
      simp [beq_iff_eq, h2]
    simp [ht, hl]

theorem c7_lint_escalation_witness :
    (handle_line ⟨true, true, none⟩ [] init_out
      (.parsed ⟨some "warning", none, some "deny", some ["a"], none, none⟩)).got_error_diag = true
    ∧ (handle_line ⟨true, true, none⟩ [] init_out
        (.parsed ⟨some "warning", none, some "deny", none, none, none⟩)).got_error_diag =
        init_out.got_error_diag :=
  ⟨(c7_lint_escalation ⟨true, true, none⟩ [] init_out).1
      ⟨some "warning", none, some "deny", some ["a"], none, none⟩ ["a"] rfl (by decide)
      (Or.inl rfl),
    (c7_lint_escalation ⟨true, true, none⟩ [] init_out).2
      ⟨some "warning", none, some "deny", none, none, none⟩ (Or.inl rfl) (by decide)⟩

theorem finalize_signal_eq (fargs : FinalizeArgs) (ex : String → Bool) (res0 : Int) (e : Bool)
    (h : reconcile res0 e < 0) :
    finalize fargs ex res0 e =
      { status := reconcile res0 e,
        signal_msg := some (signal_message (reconcile res0 e) fargs.rustc),
        build_status := none, touched := [] } := by
  unfold finalize
  rw [if_pos h]

theorem finalize_filter_hit (fargs : FinalizeArgs) (ex : String → Bool) (res0 : Int) (e : Bool)
    (hff : fargs.failure_filter_on = true) (hnneg : ¬(reconcile res0 e < 0))
    (hcond : (e && !(reconcile res0 e == 0)) = true) :
    finalize fargs ex res0 e =
      { status := 0, signal_msg := none,
        build_status := some
          { status := reconcile res0 e,
            files := (fargs.required_output.filter (fun sp => ex sp.2)).map (fun sp => sp.1) },
        touched := touch_loop ex fargs.required_output } := by
  unfold finalize
  rw [if_neg hnneg, hff, if_pos rfl, if_pos hcond]

theorem finalize_filter_miss (fargs : FinalizeArgs) (ex : String → Bool) (res0 : Int) (e : Bool)
    (hff : fargs.failure_filter_on = true) (hnneg : ¬(reconcile res0 e < 0))
    (hcond : (e && !(reconcile res0 e == 0)) = false) :
    finalize fargs ex res0 e =
      { status := reconcile res0 e, signal_msg := none,
        build_status := some
          { status := reconcile res0 e,
            files := (fargs.required_output.filter (fun sp => ex sp.2)).map (fun sp => sp.1) },
        touched := [] } := by
  unfold finalize
  rw [if_neg hnneg, hff, if_pos rfl, if_neg (by rw [hcond]; simp)]

theorem finalize_no_filter_eq (fargs : FinalizeArgs) (ex : String → Bool) (res0 : Int)
    (e : Bool) (hff : fargs.failure_filter_on = false) (hnneg : ¬(reconcile res0 e < 0)) :
    finalize fargs ex res0 e =
      { status := reconcile res0 e, signal_msg := none, build_status := none,
        touched := [] } := by
  unfold finalize
  rw [if_neg hnneg, hff, if_neg (by simp)]

/-- C2: with failure filtering enabled and no death by signal, the filter
sets the effective status to 0 and backfills every missing required-output
path exactly when `got_error_diag` is true and the (promoted) effective
status is non-zero; otherwise — in particular whenever `got_error_diag` is
false — the effective status is left as reconciled (even if non-zero) and
nothing is touched. -/
theorem c2_failure_filter (fargs : FinalizeArgs) (ex : String → Bool) (res0 : Int) (e : Bool)
    (hff : fargs.failure_filter_on = true) (hres : 0 ≤ res0) :
    ((e = true ∧ reconcile res0 e ≠ 0) →
      (finalize fargs ex res0 e).status = 0 ∧
      ∀ sp ∈ fargs.required_output,
        ex sp.2 = true ∨ sp.2 ∈ (finalize fargs ex res0 e).touched)
    ∧ (¬(e = true ∧ reconcile res0 e ≠ 0) →
      (finalize fargs ex res0 e).status = reconcile res0 e ∧
      (finalize fargs ex res0 e).touched = []) := by
  have hnneg : ¬(reconcile res0 e < 0) := by
    unfold reconcile
    split <;> omega
  constructor
  · rintro ⟨he, hz⟩
    subst he
    have hcond : ((true : Bool) && !(reconcile res0 true == 0)) = true := by
      simp [beq_iff_eq, hz]
    rw [finalize_filter_hit fargs ex res0 true hff hnneg hcond]
    refine ⟨rfl, fun sp hsp => ?_⟩
    by_cases hx : ex sp.2 = true
    · exact Or.inl hx
    · exact Or.inr (touch_loop_covers _ ex sp hsp (by simpa using hx))
  · intro hno
    have hcond : (e && !(reconcile res0 e == 0)) = false := by
      rcases he : e with _ | _
      · rfl
      · subst he
        have hz : reconcile res0 true = 0 := by
          by_contra hc
          exact hno ⟨rfl, hc⟩
        simp [hz]
    rw [finalize_filter_miss fargs ex res0 e hff hnneg hcond]
    exact ⟨rfl, rfl⟩

theorem c2_failure_filter_witness :
    (((true : Bool) = true ∧ reconcile 1 true ≠ 0) →
      (finalize ⟨true, [("a", "out/a"), ("b", "out/b")], []⟩ (fun p => p == "out/a") 1
        true).status = 0 ∧
      ∀ sp ∈ [(("a" : String), ("out/a" : String)), ("b", "out/b")],
        (fun p => p == "out/a") sp.2 = true ∨
        sp.2 ∈ (finalize ⟨true, [("a", "out/a"), ("b", "out/b")], []⟩ (fun p => p == "out/a") 1
          true).touched)
    ∧ (¬((true : Bool) = true ∧ reconcile 1 true ≠ 0) →
      (finalize ⟨true, [("a", "out/a"), ("b", "out/b")], []⟩ (fun p => p == "out/a") 1
        true).status = reconcile 1 true ∧
      (finalize ⟨true, [("a", "out/a"), ("b", "out/b")], []⟩ (fun p => p == "out/a") 1
        true).touched = []) :=
  c2_failure_filter ⟨true, [("a", "out/a"), ("b", "out/b")], []⟩ (fun p => p == "out/a") 1 true
    (by decide) (by decide)

/-- C4: whenever a build-status descriptor is produced, its file list is
exactly the short names of the required outputs whose path existed at
filter-evaluation time, in declaration order; every path later touched by
the placeholder loop was nonexistent at that time, so placeholder creation
never inflates the list. -/
theorem c4_build_status_files (fargs : FinalizeArgs) (ex : String → Bool) (res0 : Int)
    (e : Bool) (bs : BuildStatus) (h : (finalize fargs ex res0 e).build_status = some bs) :
    bs.files = (fargs.required_output.filter (fun sp => ex sp.2)).map (fun sp => sp.1)
    ∧ ∀ p ∈ (finalize fargs ex res0 e).touched, ex p = false := by
  by_cases hneg : reconcile res0 e < 0
  · rw [finalize_signal_eq fargs ex res0 e hneg] at h
    exact absurd h (by simp)
  · rcases hff : fargs.failure_filter_on with _ | _
    · rw [finalize_no_filter_eq fargs ex res0 e hff hneg] at h
      exact absurd h (by simp)
    · rcases hcond : (e && !(reconcile res0 e == 0)) with _ | _
      · rw [finalize_filter_miss fargs ex res0 e hff hneg hcond] at h ⊢
        simp only [Option.some.injEq] at h
        exact ⟨by rw [← h], fun p hp => absurd hp (List.not_mem_nil _)⟩
      · rw [finalize_filter_hit fargs ex res0 e hff hneg hcond] at h ⊢
        simp only [Option.some.injEq] at h
        exact ⟨by rw [← h], fun p hp => touch_loop_not_ex _ _ _ hp⟩

theorem c4_build_status_files_witness :
    (⟨1, ["a"]⟩ : BuildStatus).files =
      (([(("a" : String), ("out/a" : String)), ("b", "out/b")]).filter
        (fun sp => (fun p => p == "out/a") sp.2)).map (fun sp => sp.1)
    ∧ ∀ p ∈ (finalize ⟨true, [("a", "out/a"), ("b", "out/b")], []⟩ (fun p => p == "out/a") 0
        true).touched, (fun p => p == "out/a") p = false :=
  c4_build_status_files ⟨true, [("a", "out/a"), ("b", "out/b")], []⟩ (fun p => p == "out/a") 0
    true ⟨1, ["a"]⟩ (by decide)

/-- Modelled from the wording of claim C5: the unused names themselves put
in lexicographic order first, each then annotated with its mapped target.
The code instead annotates first and sorts the annotated strings. -/
def claim_rendered_c5 (target : String) (crate_map : EnvMap) (names : List String) : String :=
  "Target `" ++ target ++ "` has unused dependencies:\n    " ++
    String.intercalate "\n    " ((py_sort names).map (render_unused_entry crate_map))

def c5_diag : Diag :=
  { level := some "warning", rendered := some "original rendered text",
    lint_level := some "allow", unused_extern_names := some ["a", "b"],
    buck_target := none, unused_deps := none }

/-- C5 counterexample: with unused names `a`, `b` and crate map `b ↦ S`,
the emitted message lists `S: b` before `a` (the annotated strings are
sorted), so the names are not listed in lexicographic order as the claim
states (`a` before `b`). -/
theorem c5_counterexample :
    (handle_line ⟨true, true, some "T"⟩ [("b", "S")] init_out (.parsed c5_diag)).diag_json =
      [{ c5_diag with
          buck_target := some "T"
          rendered := some "Target `T` has unused dependencies:\n    S: b\n    a"
          unused_deps := some [("b", "S")] }]
    ∧ "Target `T` has unused dependencies:\n    S: b\n    a" ≠
        claim_rendered_c5 "T" [("b", "S")] ["a", "b"]
    ∧ claim_rendered_c5 "T" [("b", "S")] ["a", "b"] =
        "Target `T` has unused dependencies:\n    a\n    S: b" := by
  decide

/-- C5 (amended): when a caller identifier is supplied, a record with a
non-empty unused-dependency set is emitted enriched with that identifier,
with the unused-name to target mapping restricted to names present in the
crate map, and with a synthesized message listing the annotated entries
(`target: name` when mapped, bare name otherwise) sorted lexicographically
as annotated strings. -/
theorem c5_enrichment (args : HandlerArgs) (cm : EnvMap) (st : OutState) (d : Diag)
    (tgt : String) (names : List String) (hbt : args.buck_target = some tgt)
    (hjson : args.diag_json_on = true) (hn : d.unused_extern_names = some names)
    (hne : names ≠ []) :
    ∃ d' entries,
      (handle_line args cm st (.parsed d)).diag_json = st.diag_json ++ [d']
      ∧ d'.buck_target = some tgt
      ∧ entries.Perm (names.map (render_unused_entry cm))
      ∧ entries.Sorted str_le
      ∧ d'.rendered = some ("Target `" ++ tgt ++ "` has unused dependencies:\n    " ++
          String.intercalate "\n    " entries)
      ∧ d'.unused_deps = some (unused_deps_map cm names)
      ∧ (∀ p ∈ unused_deps_map cm names, dict_get cm p.1 = some p.2)
      ∧ (unused_deps_map cm names).map (fun p => p.1) =
          (dedup_first names).filter (fun n => (dict_get cm n).isSome) := by
  have ht : truthy_names d.unused_extern_names = true := by
    rw [hn]
    cases names with
    | nil => exact absurd rfl hne
    | cons a as => rfl
  have hgetD : d.unused_extern_names.getD [] = names := by rw [hn]; rfl
  refine ⟨enrich_unused (some tgt) cm d names,
    py_sort (names.map (render_unused_entry cm)), ?_, rfl, py_sort_perm _, py_sort_sorted _,
    rfl, rfl, fun p hp => filterMap_pair_mem _ _ p hp, filterMap_pair_fst _ _⟩
  rw [handle_line_parsed, emit_phase_spec]
  simp [ht, hbt, hgetD, hjson]

theorem c5_enrichment_witness :
    ∃ d' entries,
      (handle_line ⟨true, true, some "T"⟩ [("b", "S")] init_out
          (.parsed c5_diag)).diag_json = init_out.diag_json ++ [d']
      ∧ d'.buck_target = some "T"
      ∧ entries.Perm ((["a", "b"]).map (render_unused_entry [("b", "S")]))
      ∧ entries.Sorted str_le
      ∧ d'.rendered = some ("Target `" ++ "T" ++ "` has unused dependencies:\n    " ++
          String.intercalate "\n    " entries)
      ∧ d'.unused_deps = some (unused_deps_map [("b", "S")] ["a", "b"])
      ∧ (∀ p ∈ unused_deps_map [("b", "S")] ["a", "b"], dict_get [("b", "S")] p.1 = some p.2)
      ∧ (unused_deps_map [("b", "S")] ["a", "b"]).map (fun p => p.1) =
          (dedup_first ["a", "b"]).filter (fun n => (dict_get [("b", "S")] n).isSome) :=
  c5_enrichment ⟨true, true, some "T"⟩ [("b", "S")] init_out c5_diag "T" ["a", "b"] rfl rfl
    rfl (by decide)

def c8_diag : Diag :=
  { level := some "warning", rendered := some "original rendered text",
    lint_level := none, unused_extern_names := some ["a"],
    buck_target := none, unused_deps := none }

/-- C8 counterexample: with no caller identifier supplied, a record with
unused name `a` and crate map `a ↦ T1` is still forwarded with the
`unused_deps` mapping attached — the assignment sits outside the
caller-identifier conditional — contradicting the claim that no mapping is
attached. -/
theorem c8_counterexample :
    (handle_line ⟨true, true, none⟩ [("a", "T1")] init_out (.parsed c8_diag)).diag_json =
      [{ c8_diag with unused_deps := some [("a", "T1")] }]
    ∧ ({ c8_diag with unused_deps := some [("a", "T1")] } : Diag).unused_deps ≠
        c8_diag.unused_deps := by
  decide

/-- C8 (amended): with no caller identifier supplied, a record with a
non-empty unused-dependency set is forwarded to the structured sink with all
fields unchanged except that the unused-name to target mapping (restricted
to names present in the crate map) is attached; no identifier and no
synthesized message are added. -/
theorem c8_no_identifier (args : HandlerArgs) (cm : EnvMap) (st : OutState) (d : Diag)
    (names : List String) (hbt : args.buck_target = none) (hjson : args.diag_json_on = true)
    (hn : d.unused_extern_names = some names) (hne : names ≠ []) :
    (handle_line args cm st (.parsed d)).diag_json =
      st.diag_json ++ [{ d with unused_deps := some (unused_deps_map cm names) }] := by
  have ht : truthy_names d.unused_extern_names = true := by
    rw [hn]
    cases names with
    | nil => exact absurd rfl hne
    | cons a as => rfl
  have hgetD : d.unused_extern_names.getD [] = names := by rw [hn]; rfl
  rw [handle_line_parsed, emit_phase_spec]
  simp [ht, hbt, hgetD, hjson, enrich_unused]

theorem c8_no_identifier_witness :
    (handle_line ⟨true, true, none⟩ [("a", "T1")] init_out (.parsed c8_diag)).diag_json =
      init_out.diag_json ++ [{ c8_diag with
        unused_deps := some (unused_deps_map [("a", "T1")] ["a"]) }] :=
  c8_no_identifier ⟨true, true, none⟩ [("a", "T1")] init_out c8_diag ["a"] rfl rfl rfl
    (by decide)

/-- C10: when a caller identifier is supplied and the record has a truthy
unused-dependency set, the enrichment overwrites the record's rendered text
with the synthesized message, so only the synthesized message reaches the
structured sink's rendered field, the text sink and the wrapper error
stream; the loop-body result does not depend on the record's original
rendered text at all. -/
theorem c10_rendered_overwrite (args : HandlerArgs) (cm : EnvMap) (st : OutState) (d : Diag)
    (tgt : String) (names : List String) (hbt : args.buck_target = some tgt)
    (hn : d.unused_extern_names = some names) (hne : names ≠ []) :
    (handle_line args cm st (.parsed d)).stderr_out =
      st.stderr_out ++ synth_rendered tgt cm names ++ "\n"
    ∧ (handle_line args cm st (.parsed d)).diag_txt =
        st.diag_txt ++ (if args.diag_txt_on then synth_rendered tgt cm names ++ "\n" else "")
    ∧ (handle_line args cm st (.parsed d)).diag_json =
        st.diag_json ++ (if args.diag_json_on then [enrich_unused (some tgt) cm d names] else [])
    ∧ (enrich_unused (some tgt) cm d names).rendered = some (synth_rendered tgt cm names)
    ∧ ∀ r0 : Option String,
        handle_line args cm st (.parsed { d with rendered := r0 }) =
          handle_line args cm st (.parsed d) := by
  have ht : truthy_names d.unused_extern_names = true := by
    rw [hn]
    cases names with
    | nil => exact absurd rfl hne
    | cons a as => rfl
  have hgetD : d.unused_extern_names.getD [] = names := by rw [hn]; rfl
  refine ⟨?_, ?_, ?_, rfl, ?_⟩
  · rw [handle_line_parsed, emit_phase_spec]
    simp [ht, hbt, hgetD, enrich_unused, String.append_assoc]
  · rw [handle_line_parsed, emit_phase_spec]
    simp [ht, hbt, hgetD, enrich_unused, String.append_assoc]
  · rw [handle_line_parsed, emit_phase_spec]
    simp [ht, hbt, hgetD]
  · intro r0
    cases names with
    | nil => exact absurd rfl hne
    | cons a as =>
      obtain ⟨aj, atx, abt⟩ := args
      have hbt' : abt = some tgt := hbt
      subst hbt'
      obtain ⟨f1, f2, f3, f4, f5, f6⟩ := d
      have hn' : f4 = some (a :: as) := hn
      subst hn'
      rfl

theorem c10_rendered_overwrite_witness :
    (handle_line ⟨true, true, some "T"⟩ [("b", "S")] init_out (.parsed c5_diag)).stderr_out =
      init_out.stderr_out ++ synth_rendered "T" [("b", "S")] ["a", "b"] ++ "\n"
    ∧ (handle_line ⟨true, true, some "T"⟩ [("b", "S")] init_out (.parsed c5_diag)).diag_txt =
        init_out.diag_txt ++
          (if true then synth_rendered "T" [("b", "S")] ["a", "b"] ++ "\n" else "")
    ∧ (handle_line ⟨true, true, some "T"⟩ [("b", "S")] init_out (.parsed c5_diag)).diag_json =
        init_out.diag_json ++
          (if true then [enrich_unused (some "T") [("b", "S")] c5_diag ["a", "b"]] else [])
    ∧ (enrich_unused (some "T") [("b", "S")] c5_diag ["a", "b"]).rendered =
        some (synth_rendered "T" [("b", "S")] ["a", "b"])
    ∧ ∀ r0 : Option String,
        handle_line ⟨true, true, some "T"⟩ [("b", "S")] init_out
            (.parsed { c5_diag with rendered := r0 }) =
          handle_line ⟨true, true, some "T"⟩ [("b", "S")] init_out (.parsed c5_diag) :=
  c10_rendered_overwrite ⟨true, true, some "T"⟩ [("b", "S")] init_out c5_diag "T" ["a", "b"]
    rfl rfl (by decide)

/-- C9: for a path-valued environment override `(k, v)` (taking the last
binding of `k` among the `--path-env` pairs, as dict construction does), the
subprocess environment maps `k` to `resolve fs cwd v`, and that value is an
absolute, fully normalized path (no empty, `.` or `..` components) for every
working directory and every filesystem — in particular also when the path
does not exist in the symlink table, so a missing path is never rejected. -/
theorem c9_path_env_absolute (ambient : String → Option String) (env_args : Option EnvMap)
    (l₁ l₂ : EnvMap) (fs : List (String × String)) (cwd k v : String)
    (h2 : ∀ p ∈ l₂, p.1 ≠ k) :
    dict_get (build_env ambient env_args (some (l₁ ++ (k, v) :: l₂)) fs cwd) k =
      some (resolve fs cwd v)
    ∧ is_abs (resolve fs cwd v) = true
    ∧ ∃ comps, resolve fs cwd v = join_abs comps ∧ ∀ c ∈ comps, good_comp c = true := by
  refine ⟨?_, resolve_is_abs fs cwd v, resolve_normalized fs cwd v⟩
  simp only [build_env]
  rw [List.map_append, List.map_cons]
  rw [show ((k, v).1, resolve fs cwd (k, v).2) ::
        List.map (fun kv => (kv.1, resolve fs cwd kv.2)) l₂ =
      [((k, v).1, resolve fs cwd (k, v).2)] ++
        List.map (fun kv => (kv.1, resolve fs cwd kv.2)) l₂ from rfl]
  rw [← List.append_assoc, dict_update_append]
  rw [dict_get_update_absent _ _ _ (by
    intro p hp
    obtain ⟨q, hq, rfl⟩ := List.mem_map.mp hp
    exact h2 q hq)]
  rw [dict_update_append]
  exact dict_get_set_self _ _ _

theorem c9_path_env_absolute_witness :
    dict_get (build_env (fun _ => none) none (some ([] ++ ("X", "lib/../inc") :: [])) []
        "/w") "X" = some (resolve [] "/w" "lib/../inc")
    ∧ is_abs (resolve [] "/w" "lib/../inc") = true
    ∧ ∃ comps, resolve [] "/w" "lib/../inc" = join_abs comps ∧
        ∀ c ∈ comps, good_comp c = true :=
  c9_path_env_absolute (fun _ => none) none [] [] [] "/w" "X" "lib/../inc"
    (by intro p hp; exact absurd hp (List.not_mem_nil _))

end RustcAction
